import Mathlib

/-!
Verification of the Cerelog ESP-EEG lab-stream-layer bridge.

The development shallowly embeds the three Python sources:
  * `cerelog_lsl.py` — LSL outlet bridge (frame reassembly, decode, convert);
  * `To fix/broken_cerelog_virtual_dongle.py` — virtual-serial Cyton emulator;
  * `To fix/broken_cerelog_wifi_bridge.py` — WiFi-shield HTTP/TCP emulator.
Bytes are modelled as `Nat` (each < 256 where it matters), byte strings as
`List Nat`, Python's `int.from_bytes(..., signed=True)` as an explicit
two's-complement reading into `Int`, and Python floats as exact rationals.
-/

namespace Cerelog

/-- DATA_PACKET_START_MARKER = 0xABCD, big-endian byte pair. -/
def startMarker : List Nat := [0xAB, 0xCD]

/-- DATA_PACKET_END_MARKER = 0xDCBA, big-endian byte pair. -/
def endMarkerBytes : List Nat := [0xDC, 0xBA]

/-- `buffer.find(start_marker)`: index of the first occurrence of the
2-byte start marker, `none` when absent (Python returns -1). -/
def findMarker : List Nat → Option Nat
  | a :: b :: rest =>
    if a = 0xAB ∧ b = 0xCD then some 0
    else (findMarker (b :: rest)).map (· + 1)
  | _ => none

/-- `potential_packet.endswith(end_marker)`: the last two bytes are 0xDC 0xBA
(the scan window always has 37 bytes at the call site). -/
def endOK (pkt : List Nat) : Bool := pkt.drop (pkt.length - 2) == endMarkerBytes

/-- `potential_packet[PACKET_IDX_LENGTH:PACKET_IDX_CHECKSUM]`, the 32 payload
bytes at offsets 2..33. -/
def payloadOf (pkt : List Nat) : List Nat := (pkt.drop 2).take 32

/-- `sum(payload) & 0xFF == potential_packet[PACKET_IDX_CHECKSUM]`:
checksum byte 34 equals the payload sum mod 256. -/
def checksumOkB (pkt : List Nat) : Bool := (payloadOf pkt).sum % 256 == pkt.getD 34 0

/-- The 37-byte candidate window beginning at offset `i`. -/
def windowAt (l : List Nat) (i : Nat) : List Nat := (l.drop i).take 37

/-- The window at `i` passes the end-marker and checksum checks. -/
def goodWindow (l : List Nat) (i : Nat) : Bool :=
  endOK (windowAt l i) && checksumOkB (windowAt l i)

/-- The 2-byte start marker occurs at offset `i`. -/
def markerAt (l : List Nat) (i : Nat) : Prop := (l.drop i).take 2 = startMarker

instance (l : List Nat) (i : Nat) : Decidable (markerAt l i) := by
  unfold markerAt; infer_instance

/-- The inner parse loop of `main` in `cerelog_lsl.py` (lines 145-200), run on
one accumulated buffer; the identical loop is `serial_worker` in
`broken_cerelog_wifi_bridge.py` (lines 99-135).  Returns the packets that
passed both the end-marker and checksum checks (each such packet is pushed
downstream) and the retained buffer.  Fuel bounds the iteration count; the
wrapper `parse` supplies enough fuel (each iteration consumes at least one
buffer byte). -/
def parseFrames : Nat → List Nat → List (List Nat) × List Nat
  | 0, buffer => ([], buffer)
  | fuel + 1, buffer =>
    match findMarker buffer with
    | none => ([], buffer.drop (buffer.length - 1))
    | some i =>
      if buffer.length < i + 37 then ([], buffer)
      else
        let pkt := (buffer.drop i).take 37
        if endOK pkt && checksumOkB pkt then
          let r := parseFrames fuel (buffer.drop (i + 37))
          (pkt :: r.1, r.2)
        else parseFrames fuel (buffer.drop (i + 1))

/-- Feed one chunk of bytes into an empty engine buffer and run the parse loop
to quiescence. -/
def parse (buffer : List Nat) : List (List Nat) × List Nat :=
  parseFrames buffer.length buffer

/-- `int.from_bytes(raw_bytes, byteorder='big', signed=True)`. -/
def intFromBytesBE (bs : List Nat) : Int :=
  let u : Nat := bs.foldl (fun acc b => acc * 256 + b) 0
  if 256 ^ bs.length ≤ 2 * u then (u : Int) - (256 : Int) ^ bs.length else (u : Int)

/-- `ads_data = potential_packet[7:34]`, the 27-byte acquisition-chip region. -/
def adsData (pkt : List Nat) : List Nat := (pkt.drop 7).take 27

/-- `raw_bytes = ads_data[idx : idx + 3]` with
`idx = ADS1299_NUM_STATUS_BYTES + ch * ADS1299_BYTES_PER_CHANNEL`. -/
def channelBytes (pkt : List Nat) (ch : Nat) : List Nat :=
  ((adsData pkt).drop (3 + ch * 3)).take 3

/-- The per-channel loop of `main` (cerelog_lsl.py lines 177-188) and of
`serial_worker` (wifi bridge lines 115-120): 8 channels, each read from its
3-byte slice as a big-endian two's-complement integer. -/
def decodeSample (pkt : List Nat) : List Int :=
  (List.range 8).map fun ch => intFromBytesBE (channelBytes pkt ch)

/-- Fixed reference voltage, 4.5 V (default argument `vref=4.5`). -/
def Vref : ℚ := 9 / 2

/-- Fixed amplifier gain (default argument `gain=24`). -/
def gainQ : ℚ := 24

/-- `convert_to_microvolts` from cerelog_lsl.py lines 32-35, over exact
rationals in place of Python floats. -/
def convert_to_microvolts (raw : Int) : ℚ :=
  let scale_factor : ℚ := (2 * Vref / gainQ) / (2 ^ 24)
  (raw : ℚ) * scale_factor * 1000000

/-- The shared queue discipline of `serial_worker` (wifi bridge lines 126-130):
`data_queue.append(row_data); if len(data_queue) > 500: data_queue.pop(0)`. -/
def hubPush (q : List α) (x : α) : List α :=
  let q' := q ++ [x]
  if 500 < q'.length then q'.tail else q'

/-- Identity string sent on reset (`ID_STRING`, virtual dongle line 67). -/
def idStringBytes : List Nat :=
  "OpenBCI V3 8-16 channel\r\nOn Board ADS1299 Device ID: 0x3E\r\n$$$".toList.map Char.toNat

/-- Acknowledgment set of `gui_command_listener` (virtual dongle line 87). -/
def ackBytes : List Nat :=
  "xX12345678!@#$%^&*()qwertyuiop".toList.map Char.toNat

/-- One step of the `gui_command_listener` command state machine (virtual
dongle lines 74-88): input is the streaming flag and one command byte, output
is the new flag and the bytes written back.  118 = v, 98 = b, 115 = s,
44 = comma. -/
def handleCmd (streaming : Bool) (b : Nat) : Bool × List Nat :=
  if b = 118 then (false, idStringBytes)
  else if b = 98 then (true, [])
  else if b = 115 then (false, [])
  else if b ∈ ackBytes then (streaming, [44])
  else (streaming, [])

/-- The 33-byte OpenBCI output frame of the virtual dongle (lines 131-136):
start byte 0xA0, sample index, `potential_packet[10:34]` verbatim, six zero
auxiliary bytes, end byte 0xC0. -/
def mkObciFrame (s : Nat) (pkt : List Nat) : List Nat :=
  0xA0 :: s :: ((pkt.drop 10).take 24 ++ [0, 0, 0, 0, 0, 0] ++ [0xC0])

/-- The virtual dongle's per-packet sink step (lines 129-138) iterated over a
list of end-marker-validated packets: counter `c` increments per packet; when
streaming is enabled and the counter is a multiple of the downsample ratio
`N`, a frame is emitted and the sample index advances mod 256. -/
def dongleSink (N : Nat) (en : Bool) : Nat → Nat → List (List Nat) → List (List Nat)
  | _, _, [] => []
  | c, s, pkt :: rest =>
    if en ∧ (c + 1) % N = 0 then
      mkObciFrame s pkt :: dongleSink N en (c + 1) ((s + 1) % 256) rest
    else
      dongleSink N en (c + 1) s rest

/-- The virtual dongle's full inner loop (lines 120-141): same buffer scan as
`parseFrames`, but a window passing the end-marker check alone is accepted
(no checksum check) and fed to the sink step. -/
def dongleFrames : Nat → Nat → Bool → Nat → Nat → List Nat → List (List Nat) × List Nat
  | 0, _, _, _, _, buffer => ([], buffer)
  | fuel + 1, N, en, c, s, buffer =>
    match findMarker buffer with
    | none => ([], buffer.drop (buffer.length - 1))
    | some i =>
      if buffer.length < i + 37 then ([], buffer)
      else
        let pkt := (buffer.drop i).take 37
        if endOK pkt then
          if en ∧ (c + 1) % N = 0 then
            let r := dongleFrames fuel N en (c + 1) ((s + 1) % 256) (buffer.drop (i + 37))
            (mkObciFrame s pkt :: r.1, r.2)
          else
            dongleFrames fuel N en (c + 1) s (buffer.drop (i + 37))
        else dongleFrames fuel N en c s (buffer.drop (i + 1))

/-- Stream-verification step of `find_and_open_board` in cerelog_lsl.py
(lines 94-100): accept when the burst is nonempty and contains 0xABCD. -/
def verifyStreamLsl (bs : List Nat) : Bool := !bs.isEmpty && (findMarker bs).isSome

/-- Stream-verification step of `find_and_open_board` in the wifi bridge
(lines 71-76): identical to the LSL bridge's. -/
def verifyStreamWifi (bs : List Nat) : Bool := !bs.isEmpty && (findMarker bs).isSome

/-- Stream-verification step of `find_and_open_board` in the virtual dongle
(lines 54-57): `if ser.read(RAW_SIZE * 5):` — any nonempty burst accepted. -/
def verifyStreamDongle (bs : List Nat) : Bool := !bs.isEmpty

/-- A 37-byte packet with correct markers whose stored checksum byte (1) does
not match its payload sum (0). -/
def badPacket : List Nat := startMarker ++ List.replicate 32 0 ++ [1] ++ endMarkerBytes

/-- A genuine valid 37-byte frame: zero payload, checksum 0. -/
def goodPacket : List Nat := startMarker ++ List.replicate 32 0 ++ [0] ++ endMarkerBytes

/-- Specification-side view of the dongle sink's selection: the packets at
positions where the running counter (starting from `c`) becomes a multiple of
the downsample ratio `N`, i.e. every `N`-th packet. -/
def everyNth (N : Nat) : Nat → List (List Nat) → List (List Nat)
  | _, [] => []
  | c, x :: rest =>
    if (c + 1) % N = 0 then x :: everyNth N (c + 1) rest else everyNth N (c + 1) rest

/-- Specification-side view of the dongle sink's output: one 33-byte frame per
selected packet, sample indices counting up from `s` and wrapping mod 256. -/
def frameSeq : Nat → List (List Nat) → List (List Nat)
  | _, [] => []
  | s, pkt :: rest => mkObciFrame s pkt :: frameSeq ((s + 1) % 256) rest

/-! ## Helper lemmas: the start-marker search -/

theorem markerAt_nil (i : Nat) : ¬ markerAt [] i := by
  simp [markerAt, startMarker]

theorem markerAt_single (a : Nat) (i : Nat) : ¬ markerAt [a] i := by
  cases i with
  | zero => simp [markerAt, startMarker]
  | succ n => simp [markerAt, startMarker, List.drop_succ_cons]

theorem markerAt_cons_succ (a : Nat) (l : List Nat) (i : Nat) :
    markerAt (a :: l) (i + 1) ↔ markerAt l i := by
  simp [markerAt, List.drop_succ_cons]

theorem markerAt_zero (a b : Nat) (l : List Nat) :
    markerAt (a :: b :: l) 0 ↔ a = 0xAB ∧ b = 0xCD := by
  simp [markerAt, startMarker]

theorem markerAt_iff (l : List Nat) (i : Nat) :
    markerAt l i ↔ l[i]? = some 0xAB ∧ l[i + 1]? = some 0xCD := by
  have h0 : l[i]? = (l.drop i)[0]? := by simp [List.getElem?_drop]
  have h1 : l[i + 1]? = (l.drop i)[1]? := by simp [List.getElem?_drop]
  rw [h0, h1]
  unfold markerAt startMarker
  rcases hd : l.drop i with _ | ⟨a, _ | ⟨b, t⟩⟩ <;> simp

theorem markerAt_drop (l : List Nat) (d i : Nat) :
    markerAt (l.drop d) i ↔ markerAt l (d + i) := by
  simp [markerAt, List.drop_drop]

theorem not_markerAt_of_forall_lt (l : List Nat)
    (h : ∀ i < l.length, ¬ markerAt l i) : ∀ i, ¬ markerAt l i := by
  intro i hm
  by_cases hi : i < l.length
  · exact h i hi hm
  · unfold markerAt at hm
    rw [List.drop_eq_nil_of_le (by omega)] at hm
    simp [startMarker] at hm

theorem findMarker_spec : ∀ l : List Nat,
    (∀ j, findMarker l = some j → markerAt l j ∧ ∀ k < j, ¬ markerAt l k) ∧
    (findMarker l = none → ∀ i, ¬ markerAt l i) := by
  intro l
  induction l with
  | nil => exact ⟨by simp [findMarker], fun _ i => markerAt_nil i⟩
  | cons a l ih =>
    cases l with
    | nil => exact ⟨by simp [findMarker], fun _ i => markerAt_single a i⟩
    | cons b rest =>
      by_cases hab : a = 0xAB ∧ b = 0xCD
      · constructor
        · intro j hj
          simp only [findMarker, if_pos hab] at hj
          cases hj
          exact ⟨(markerAt_zero a b rest).mpr hab, by omega⟩
        · intro hn
          simp only [findMarker, if_pos hab] at hn
          exact Option.noConfusion hn
      · constructor
        · intro j hj
          simp only [findMarker, if_neg hab] at hj
          cases hfm : findMarker (b :: rest) with
          | none => rw [hfm] at hj; simp at hj
          | some j' =>
            rw [hfm] at hj
            simp only [Option.map_some', Option.some.injEq] at hj
            subst hj
            obtain ⟨hm, hmin⟩ := ih.1 j' hfm
            refine ⟨(markerAt_cons_succ a _ j').mpr hm, ?_⟩
            intro k hk
            cases k with
            | zero => intro hk0; exact hab ((markerAt_zero a b rest).mp hk0)
            | succ k' =>
              intro hks
              exact hmin k' (by omega) ((markerAt_cons_succ a _ k').mp hks)
        · intro hn
          simp only [findMarker, if_neg hab] at hn
          cases hfm : findMarker (b :: rest) with
          | some j' => rw [hfm] at hn; simp at hn
          | none =>
            intro i
            cases i with
            | zero => intro h0; exact hab ((markerAt_zero a b rest).mp h0)
            | succ i' => intro hs; exact ih.2 hfm i' ((markerAt_cons_succ a _ i').mp hs)

theorem findMarker_first (l : List Nat) (i : Nat) (h : markerAt l i) :
    ∃ j, findMarker l = some j ∧ j ≤ i ∧ markerAt l j ∧ ∀ k < j, ¬ markerAt l k := by
  cases hfm : findMarker l with
  | none => exact absurd h ((findMarker_spec l).2 hfm i)
  | some j =>
    obtain ⟨hm, hmin⟩ := (findMarker_spec l).1 j hfm
    refine ⟨j, rfl, ?_, hm, hmin⟩
    by_contra hgt
    push_neg at hgt
    exact hmin i hgt h

/-! ## Helper lemmas: single steps of the parse loop -/

theorem parseFrames_nil (fuel : Nat) : parseFrames fuel [] = ([], []) := by
  cases fuel <;> simp [parseFrames, findMarker]

theorem parseFrames_emit (fuel : Nat) (buffer : List Nat) (i : Nat)
    (hfm : findMarker buffer = some i) (hlen : i + 37 ≤ buffer.length)
    (hv : (endOK (windowAt buffer i) && checksumOkB (windowAt buffer i)) = true) :
    parseFrames (fuel + 1) buffer =
      (windowAt buffer i :: (parseFrames fuel (buffer.drop (i + 37))).1,
       (parseFrames fuel (buffer.drop (i + 37))).2) := by
  rw [parseFrames.eq_def]
  dsimp only
  rw [hfm]
  dsimp only
  rw [if_neg (by omega)]
  unfold windowAt at hv ⊢
  rw [if_pos hv]

theorem parseFrames_resync_step (fuel : Nat) (buffer : List Nat) (i : Nat)
    (hfm : findMarker buffer = some i) (hlen : i + 37 ≤ buffer.length)
    (hv : (endOK (windowAt buffer i) && checksumOkB (windowAt buffer i)) = false) :
    parseFrames (fuel + 1) buffer = parseFrames fuel (buffer.drop (i + 1)) := by
  rw [parseFrames.eq_def]
  dsimp only
  rw [hfm]
  dsimp only
  rw [if_neg (by omega)]
  unfold windowAt at hv
  rw [if_neg (by simp [hv])]

/-! ## The resynchronization argument -/

theorem parse_resync_aux (F : List Nat) (hF : F.length = 37)
    (hFm : markerAt F 0) (hFv : (endOK F && checksumOkB F) = true) :
    ∀ n, ∀ (G : List Nat) (fuel : Nat), G.length ≤ n → G.length + 1 ≤ fuel →
      (∀ i < G.length, markerAt (G ++ F) i → goodWindow (G ++ F) i = false) →
      parseFrames fuel (G ++ F) = ([F], []) := by
  have hlenGF : ∀ G : List Nat, (G ++ F).length = G.length + 37 := by
    intro G; simp [hF]
  have hmGF : ∀ G : List Nat, markerAt (G ++ F) G.length := by
    intro G
    unfold markerAt at hFm ⊢
    rw [List.drop_left]
    simpa using hFm
  have hwinF : ∀ G : List Nat, windowAt (G ++ F) G.length = F := by
    intro G
    unfold windowAt
    rw [List.drop_left, ← hF, List.take_length]
  intro n
  induction n with
  | zero =>
    intro G fuel hGn hfuel hG
    have hG0 : G.length = 0 := by omega
    obtain ⟨fuel', rfl⟩ : ∃ fuel', fuel = fuel' + 1 := ⟨fuel - 1, by omega⟩
    obtain ⟨j, hfm, hj_le, _, _⟩ := findMarker_first _ _ (hmGF G)
    have hj0 : j = G.length := by omega
    subst hj0
    rw [parseFrames_emit fuel' _ _ hfm (by rw [hlenGF]) (by rw [hwinF]; exact hFv)]
    rw [hwinF]
    have hdrop : (G ++ F).drop (G.length + 37) = [] := by
      rw [← hlenGF, List.drop_length]
    rw [hdrop, parseFrames_nil]
  | succ n ih =>
    intro G fuel hGn hfuel hG
    obtain ⟨fuel', rfl⟩ : ∃ fuel', fuel = fuel' + 1 := ⟨fuel - 1, by omega⟩
    obtain ⟨j, hfm, hj_le, hjm, _⟩ := findMarker_first _ _ (hmGF G)
    rcases Nat.lt_or_ge j G.length with hjlt | hjge
    · -- spurious marker inside G: the window fails, advance one byte
      have hbad : goodWindow (G ++ F) j = false := hG j hjlt hjm
      rw [parseFrames_resync_step fuel' _ _ hfm (by rw [hlenGF]; omega)
        (by unfold goodWindow at hbad; exact hbad)]
      have hsplit : (G ++ F).drop (j + 1) = G.drop (j + 1) ++ F :=
        List.drop_append_of_le_length (by omega)
      rw [hsplit]
      apply ih (G.drop (j + 1)) fuel' (by simp [List.length_drop]; omega)
        (by simp [List.length_drop]; omega)
      intro i hi hm
      rw [← hsplit] at hm ⊢
      rw [markerAt_drop] at hm
      unfold goodWindow windowAt
      rw [List.drop_drop]
      have := hG (j + 1 + i) (by simp [List.length_drop] at hi; omega) hm
      unfold goodWindow windowAt at this
      exact this
    · -- first marker is the frame itself: emit it
      have hj0 : j = G.length := by omega
      subst hj0
      rw [parseFrames_emit fuel' _ _ hfm (by rw [hlenGF]) (by rw [hwinF]; exact hFv)]
      rw [hwinF]
      have hdrop : (G ++ F).drop (G.length + 37) = [] := by
        rw [← hlenGF, List.drop_length]
      rw [hdrop, parseFrames_nil]

/-! ## Helper lemmas: a frame built from a payload is valid -/

theorem frame_facts (P : List Nat) (hP : P.length = 32) :
    (startMarker ++ P ++ [P.sum % 256] ++ endMarkerBytes).length = 37 ∧
    markerAt (startMarker ++ P ++ [P.sum % 256] ++ endMarkerBytes) 0 ∧
    payloadOf (startMarker ++ P ++ [P.sum % 256] ++ endMarkerBytes) = P ∧
    (endOK (startMarker ++ P ++ [P.sum % 256] ++ endMarkerBytes) &&
      checksumOkB (startMarker ++ P ++ [P.sum % 256] ++ endMarkerBytes)) = true := by
  set F : List Nat := startMarker ++ P ++ [P.sum % 256] ++ endMarkerBytes with hFdef
  have hassoc : F = startMarker ++ (P ++ ([P.sum % 256] ++ endMarkerBytes)) := by
    simp [hFdef, List.append_assoc]
  have hassoc2 : F = (startMarker ++ P ++ [P.sum % 256]) ++ endMarkerBytes := by
    simp [hFdef, List.append_assoc]
  have hassoc3 : F = (startMarker ++ P) ++ ([P.sum % 256] ++ endMarkerBytes) := by
    simp [hFdef, List.append_assoc]
  have hlen : F.length = 37 := by simp [hFdef, startMarker, endMarkerBytes, hP]
  have hpay : payloadOf F = P := by
    unfold payloadOf
    rw [hassoc, List.drop_left' (by simp [startMarker])]
    exact List.take_left' hP
  have hend : endOK F = true := by
    unfold endOK
    rw [hlen]
    norm_num
    rw [hassoc2, List.drop_left' (by simp [startMarker, hP])]
  have hchk : checksumOkB F = true := by
    unfold checksumOkB
    rw [hpay]
    have h34 : F.getD 34 0 = P.sum % 256 := by
      rw [List.getD_eq_getElem?_getD, hassoc3,
        List.getElem?_append_right (by simp [startMarker, hP])]
      simp [startMarker, hP]
    rw [h34]
    simp
  have hm : markerAt F 0 := by
    unfold markerAt
    rw [List.drop_zero, hassoc]
    exact List.take_left' (by simp [startMarker])
  exact ⟨hlen, hm, hpay, by simp [hend, hchk]⟩

/-! ## Helper lemmas: only checksum-valid packets are emitted -/

theorem parseFrames_all_valid (fuel : Nat) :
    ∀ buffer, ∀ p ∈ (parseFrames fuel buffer).1, endOK p = true ∧ checksumOkB p = true := by
  induction fuel with
  | zero => intro buffer p hp; simp [parseFrames] at hp
  | succ fuel ih =>
    intro buffer p hp
    rw [parseFrames.eq_def] at hp
    dsimp only at hp
    cases hfm : findMarker buffer with
    | none => rw [hfm] at hp; simp at hp
    | some i =>
      rw [hfm] at hp
      dsimp only at hp
      by_cases hlen : buffer.length < i + 37
      · rw [if_pos hlen] at hp; simp at hp
      · rw [if_neg hlen] at hp
        by_cases hv : (endOK ((buffer.drop i).take 37) &&
            checksumOkB ((buffer.drop i).take 37)) = true
        · rw [if_pos hv] at hp
          rcases List.mem_cons.mp hp with rfl | hmem
          · exact ⟨(Bool.and_eq_true _ _).mp hv |>.1, (Bool.and_eq_true _ _).mp hv |>.2⟩
          · exact ih _ p hmem
        · rw [if_neg hv] at hp
          exact ih _ p hp

/-! ## Helper lemmas: the bounded drop-oldest queue -/

theorem hubPush_foldl {α : Type} (xs : List α) :
    ∀ q : List α, q.length ≤ 500 →
      xs.foldl hubPush q = (q ++ xs).drop ((q ++ xs).length - 500) := by
  induction xs with
  | nil =>
    intro q hq
    simp [Nat.sub_eq_zero_of_le hq]
  | cons x xs ih =>
    intro q hq
    rw [List.foldl_cons]
    rcases Nat.lt_or_ge q.length 500 with hlt | hge
    · have h1 : hubPush q x = q ++ [x] := by
        unfold hubPush
        rw [if_neg (by simp; omega)]
      rw [h1, ih (q ++ [x]) (by simp; omega)]
      have he : (q ++ [x]) ++ xs = q ++ x :: xs := by simp
      rw [he]
    · have heq : q.length = 500 := by omega
      cases q with
      | nil => simp at heq
      | cons y q' =>
        have hq' : q'.length = 499 := by simpa using heq
        have h1 : hubPush (y :: q') x = q' ++ [x] := by
          unfold hubPush
          rw [if_pos (by simp; omega)]
          simp
        rw [h1, ih (q' ++ [x]) (by simp [hq'])]
        have he : (q' ++ [x]) ++ xs = q' ++ x :: xs := by simp
        rw [he]
        have hlen1 : (q' ++ x :: xs).length - 500 = xs.length := by simp [hq']; omega
        have hlen2 : ((y :: q') ++ x :: xs).length - 500 = xs.length + 1 := by
          simp [hq']
        rw [hlen1, hlen2, List.cons_append, List.drop_succ_cons]

/-! ## Helper lemmas: the dongle sink's downsampling -/

theorem dongleSink_eq_frameSeq (N : Nat) :
    ∀ (pkts : List (List Nat)) (c s : Nat),
      dongleSink N true c s pkts = frameSeq s (everyNth N c pkts) := by
  intro pkts
  induction pkts with
  | nil => intro c s; simp [dongleSink, everyNth, frameSeq]
  | cons p rest ih =>
    intro c s
    unfold dongleSink everyNth
    by_cases h : (c + 1) % N = 0
    · rw [if_pos ⟨rfl, h⟩, if_pos h]
      unfold frameSeq
      rw [ih (c + 1) ((s + 1) % 256)]
    · rw [if_neg (by simp [h]), if_neg h]
      exact ih (c + 1) s

theorem everyNth_length (N : Nat) (_hN : 1 ≤ N) :
    ∀ (pkts : List (List Nat)) (c : Nat),
      (everyNth N c pkts).length = (c + pkts.length) / N - c / N := by
  intro pkts
  induction pkts with
  | nil => intro c; simp [everyNth]
  | cons p rest ih =>
    intro c
    unfold everyNth
    have hmono : (c + 1) / N ≤ (c + 1 + rest.length) / N := Nat.div_le_div_right (by omega)
    have hshape : c + (p :: rest).length = c + 1 + rest.length := by
      simp only [List.length_cons]
      omega
    by_cases h : (c + 1) % N = 0
    · rw [if_pos h]
      have h1 : (c + 1) / N = c / N + 1 := by
        rw [Nat.succ_div, if_pos (Nat.dvd_of_mod_eq_zero h)]
      rw [List.length_cons, ih (c + 1), hshape, h1]
      have h2 : c / N + 1 ≤ (c + 1 + rest.length) / N := by
        rw [← h1]
        exact hmono
      generalize hA : (c + 1 + rest.length) / N = A at h2 ⊢
      generalize hB : c / N = B at h2 ⊢
      omega
    · rw [if_neg h]
      have h1 : (c + 1) / N = c / N := by
        rw [Nat.succ_div, if_neg (fun hd => h (Nat.mod_eq_zero_of_dvd hd))]
        simp
      rw [ih (c + 1), hshape, h1]

theorem everyNth_subset (N : Nat) :
    ∀ (pkts : List (List Nat)) (c : Nat), everyNth N c pkts ⊆ pkts := by
  intro pkts
  induction pkts with
  | nil => intro c; simp [everyNth]
  | cons p rest ih =>
    intro c y hy
    unfold everyNth at hy
    by_cases h : (c + 1) % N = 0
    · rw [if_pos h] at hy
      rcases List.mem_cons.mp hy with rfl | hmem
      · exact List.mem_cons_self _ _
      · exact List.mem_cons_of_mem _ (ih (c + 1) hmem)
    · rw [if_neg h] at hy
      exact List.mem_cons_of_mem _ (ih (c + 1) hy)

theorem frameSeq_length : ∀ (l : List (List Nat)) (s : Nat), (frameSeq s l).length = l.length := by
  intro l
  induction l with
  | nil => intro s; simp [frameSeq]
  | cons p rest ih => intro s; simp [frameSeq, ih]

theorem frameSeq_mem : ∀ (l : List (List Nat)) (s f : _),
    f ∈ frameSeq s l → ∃ s' p, p ∈ l ∧ f = mkObciFrame s' p := by
  intro l
  induction l with
  | nil => intro s f hf; simp [frameSeq] at hf
  | cons p rest ih =>
    intro s f hf
    unfold frameSeq at hf
    rcases List.mem_cons.mp hf with rfl | hmem
    · exact ⟨s, p, List.mem_cons_self _ _, rfl⟩
    · obtain ⟨s', p', hp', rfl⟩ := ih ((s + 1) % 256) f hmem
      exact ⟨s', p', List.mem_cons_of_mem _ hp', rfl⟩

theorem frameSeq_indices : ∀ (l : List (List Nat)) (s : Nat), s < 256 →
    (frameSeq s l).map (fun f => f.getD 1 0) =
      (List.range l.length).map (fun j => (s + j) % 256) := by
  intro l
  induction l with
  | nil => intro s hs; simp [frameSeq]
  | cons p rest ih =>
    intro s hs
    unfold frameSeq
    simp only [List.map_cons]
    rw [ih ((s + 1) % 256) (Nat.mod_lt _ (by omega)), List.length_cons,
      List.range_succ_eq_map]
    simp only [List.map_cons, List.map_map]
    congr 1
    · simp [mkObciFrame, Nat.mod_eq_of_lt hs]
    · apply List.map_congr_left
      intro j hj
      simp only [Function.comp_apply]
      rw [Nat.mod_add_mod]
      congr 1
      omega

/-! ## Helper lemmas: 3-byte two's-complement decode bounds -/

theorem int3_bounds (bs : List Nat) (h3 : bs.length = 3) (hb : ∀ b ∈ bs, b < 256) :
    -8388608 ≤ intFromBytesBE bs ∧ intFromBytesBE bs ≤ 8388607 := by
  match bs, h3 with
  | [a, b, c], _ =>
    have ha : a < 256 := hb a (by simp)
    have hbb : b < 256 := hb b (by simp)
    have hc : c < 256 := hb c (by simp)
    unfold intFromBytesBE
    simp only [List.foldl_cons, List.foldl_nil, List.length_cons, List.length_nil]
    norm_num
    split <;> omega

/-! ## The claims -/

/-- C1: the LSL bridge and the WiFi bridge forward a candidate frame only when
its checksum byte (offset 34) equals the sum of the 32 payload bytes mod 256;
but the Virtual-Serial sink's emission path checks only the end marker, so a
37-byte window with correct markers and a wrong checksum byte is still turned
into a 33-byte output frame (here: two copies of `badPacket`, downsample ratio
2, streaming enabled — the second copy is emitted). -/
theorem checksum_gate :
    (∀ fuel buffer, ∀ p ∈ (parseFrames fuel buffer).1, checksumOkB p = true) ∧
    checksumOkB badPacket = false ∧
    endOK badPacket = true ∧
    (dongleFrames 74 2 true 0 0 (badPacket ++ badPacket)).1 = [mkObciFrame 0 badPacket] ∧
    (mkObciFrame 0 badPacket).length = 33 := by
  refine ⟨fun fuel buffer p hp => (parseFrames_all_valid fuel buffer p hp).2,
    by decide, by decide, by decide, by decide⟩

/-- C2: for every 32-byte payload `P`, the 37-byte frame
(0xABCD, P, sum(P) mod 256, 0xDCBA) fed as one chunk into an empty buffer is
emitted as exactly one validated frame whose payload bytes are exactly `P`,
and the whole 37 bytes are consumed — including when `P` itself contains the
start-marker byte pair. -/
theorem frame_roundtrip (P : List Nat) (hP : P.length = 32) :
    parse (startMarker ++ P ++ [P.sum % 256] ++ endMarkerBytes) =
      ([startMarker ++ P ++ [P.sum % 256] ++ endMarkerBytes], []) ∧
    payloadOf (startMarker ++ P ++ [P.sum % 256] ++ endMarkerBytes) = P := by
  obtain ⟨hlen, hm, hpay, hv⟩ := frame_facts P hP
  refine ⟨?_, hpay⟩
  have h := parse_resync_aux _ hlen hm hv 0 [] (startMarker ++ P ++ [P.sum % 256] ++
    endMarkerBytes).length (by simp) (by rw [hlen]; simp) (by intro i hi; simp at hi)
  simpa [parse] using h

/-- C2 witness: a concrete payload that itself contains the start-marker byte
pair round-trips as one frame. -/
theorem frame_roundtrip_witness :
    (0xAB :: 0xCD :: List.replicate 30 7).length = 32 ∧
    parse (startMarker ++ (0xAB :: 0xCD :: List.replicate 30 7) ++
        [(0xAB :: 0xCD :: List.replicate 30 7).sum % 256] ++ endMarkerBytes) =
      ([startMarker ++ (0xAB :: 0xCD :: List.replicate 30 7) ++
        [(0xAB :: 0xCD :: List.replicate 30 7).sum % 256] ++ endMarkerBytes], []) :=
  ⟨by simp, (frame_roundtrip (0xAB :: 0xCD :: List.replicate 30 7) (by simp)).1⟩

/-- C3: when a found start marker heads a window that fails the end-marker or
checksum check, the buffer advances exactly one byte past the marker position;
consequently a stream of non-frame data (possibly containing marker bytes, but
no window at a marker position that validates) followed by one genuine valid
frame yields exactly that one frame. -/
theorem resync_one_byte :
    (∀ fuel buffer i, findMarker buffer = some i → i + 37 ≤ buffer.length →
      (endOK (windowAt buffer i) && checksumOkB (windowAt buffer i)) = false →
      parseFrames (fuel + 1) buffer = parseFrames fuel (buffer.drop (i + 1))) ∧
    (∀ G F, F.length = 37 → markerAt F 0 → (endOK F && checksumOkB F) = true →
      (∀ i < G.length, markerAt (G ++ F) i → goodWindow (G ++ F) i = false) →
      parse (G ++ F) = ([F], [])) := by
  constructor
  · exact parseFrames_resync_step
  · intro G F hF hm hv hG
    have h := parse_resync_aux F hF hm hv G.length G (G ++ F).length (le_refl _)
      (by simp [hF]) hG
    simpa [parse] using h

/-- C3 witness: a spurious start marker inside four bytes of junk before a
genuine valid frame; only the genuine frame is emitted. -/
theorem resync_one_byte_witness :
    parse ([0, 0xAB, 0xCD, 1] ++ goodPacket) = ([goodPacket], []) :=
  resync_one_byte.2 [0, 0xAB, 0xCD, 1] goodPacket (by decide) (by decide) (by decide)
    (by decide)

/-- C4: `K` arbitrary bytes containing no start-marker occurrence, followed by
one valid 37-byte frame, produce exactly one emitted frame with all `K + 37`
bytes consumed. -/
theorem garbage_then_frame (G F : List Nat) (hG : ∀ i, ¬ markerAt G i)
    (hF : F.length = 37) (hm : markerAt F 0)
    (hv : (endOK F && checksumOkB F) = true) :
    parse (G ++ F) = ([F], []) ∧ (G ++ F).length = G.length + 37 := by
  have hnone : ∀ i < G.length, ¬ markerAt (G ++ F) i := by
    intro i hi hmk
    rw [markerAt_iff] at hmk
    obtain ⟨h1, h2⟩ := hmk
    rw [List.getElem?_append_left hi] at h1
    by_cases hi1 : i + 1 < G.length
    · rw [List.getElem?_append_left hi1] at h2
      exact hG i ((markerAt_iff G i).mpr ⟨h1, h2⟩)
    · rw [List.getElem?_append_right (by omega)] at h2
      have hz : i + 1 - G.length = 0 := by omega
      rw [hz] at h2
      have hm0 := ((markerAt_iff F 0).mp hm).1
      rw [hm0] at h2
      simp at h2
  constructor
  · have h := parse_resync_aux F hF hm hv G.length G (G ++ F).length (le_refl _)
      (by simp [hF]) (fun i hi hmk => absurd hmk (hnone i hi))
    simpa [parse] using h
  · simp [hF]

/-- C4 witness: three garbage bytes before a genuine valid frame. -/
theorem garbage_then_frame_witness :
    parse ([1, 2, 3] ++ goodPacket) = ([goodPacket], []) :=
  (garbage_then_frame [1, 2, 3] goodPacket
    (not_markerAt_of_forall_lt _ (by decide)) (by decide) (by decide) (by decide)).1

/-- C5 counterexample: the three acquisition bytes 0x7F 0xFF 0xFF decode to
8388607, but the fixed conversion does NOT map 8388607 anywhere near
3145.73 µV — the claimed value is off (the conversion yields ≈ 187499.98). -/
theorem micro_example_false :
    intFromBytesBE [0x7F, 0xFF, 0xFF] = 8388607 ∧
    ¬ |convert_to_microvolts 8388607 - 314573 / 100| ≤ 1 / 100 := by
  constructor
  · decide
  · have hval : convert_to_microvolts 8388607 = 393215953125 / 2097152 := by
      norm_num [convert_to_microvolts, Vref, gainQ]
    rw [hval]
    intro hc
    rw [abs_le] at hc
    have h2 := hc.2
    norm_num at h2

/-- C5 (amended): the bytes 0x7F 0xFF 0xFF decode to raw 8388607 and the fixed
conversion `raw * (2 * 4.5 / 24) / 2^24 * 1e6` yields ≈ 187499.98 µV
(within ± 0.01), not 3145.73. -/
theorem micro_example_amended :
    intFromBytesBE [0x7F, 0xFF, 0xFF] = 8388607 ∧
    |convert_to_microvolts 8388607 - 18749998 / 100| ≤ 1 / 100 := by
  constructor
  · decide
  · have hval : convert_to_microvolts 8388607 = 393215953125 / 2097152 := by
      norm_num [convert_to_microvolts, Vref, gainQ]
    rw [hval, abs_le]
    constructor <;> norm_num

/-- C6: the LSL bridge and the WiFi bridge accept a candidate transport's read
burst exactly when it contains the start marker 0xABCD; the Virtual-Serial
dongle's handshake accepts any nonempty burst — e.g. the single byte 0x00,
which contains no marker — so it violates the claimed marker requirement. -/
theorem handshake_requires_marker :
    (∀ bs, verifyStreamLsl bs = (findMarker bs).isSome) ∧
    (∀ bs, verifyStreamWifi bs = (findMarker bs).isSome) ∧
    verifyStreamDongle [0] = true ∧ (findMarker [0]).isSome = false := by
  refine ⟨?_, ?_, by decide, by decide⟩ <;>
    · intro bs
      cases bs with
      | nil => decide
      | cons a l => simp [verifyStreamLsl, verifyStreamWifi]

/-- C7: the bounded drop-oldest queue holds at most 500 entries after any
sequence of pushes from empty, and pushing 505 entries leaves exactly the last
500 pushed, in push order. -/
theorem hub_drop_oldest :
    (∀ xs : List Nat, (xs.foldl hubPush []).length ≤ 500) ∧
    (∀ xs : List Nat, xs.length = 505 →
      xs.foldl hubPush [] = xs.drop 5 ∧ (xs.foldl hubPush []).length = 500) := by
  have key : ∀ xs : List Nat, xs.foldl hubPush [] = xs.drop (xs.length - 500) := by
    intro xs
    simpa using hubPush_foldl xs [] (by simp)
  constructor
  · intro xs
    rw [key]
    simp only [List.length_drop]
    omega
  · intro xs h
    constructor
    · rw [key, h]
    · rw [key]
      simp [List.length_drop, h]

/-- C7 witness: pushing 505 concrete samples leaves the last 500 in order. -/
theorem hub_drop_oldest_witness :
    (List.range 505).length = 505 ∧
    (List.range 505).foldl hubPush [] = (List.range 505).drop 5 :=
  ⟨by simp, (hub_drop_oldest.2 (List.range 505) (by simp)).1⟩

/-- C8: with downsample ratio N ≥ 1 and streaming enabled throughout, M
validated 37-byte samples yield exactly ⌊M/N⌋ output frames — precisely one
33-byte frame (0xA0, index, 24 raw bytes verbatim, six zeros, 0xC0) for every
N-th packet — with sample-index bytes 0, 1, 2, … wrapping mod 256. -/
theorem dongle_downsample (N : Nat) (hN : 1 ≤ N) (pkts : List (List Nat))
    (hlen : ∀ p ∈ pkts, p.length = 37) :
    dongleSink N true 0 0 pkts = frameSeq 0 (everyNth N 0 pkts) ∧
    (dongleSink N true 0 0 pkts).length = pkts.length / N ∧
    (∀ f ∈ dongleSink N true 0 0 pkts, f.length = 33) ∧
    (dongleSink N true 0 0 pkts).map (fun f => f.getD 1 0) =
      (List.range (pkts.length / N)).map (fun j => j % 256) := by
  have heq := dongleSink_eq_frameSeq N pkts 0 0
  have hcount : (everyNth N 0 pkts).length = pkts.length / N := by
    rw [everyNth_length N hN pkts 0]
    simp
  refine ⟨heq, ?_, ?_, ?_⟩
  · rw [heq, frameSeq_length, hcount]
  · intro f hf
    rw [heq] at hf
    obtain ⟨s', p, hp, rfl⟩ := frameSeq_mem _ _ _ hf
    have hp37 : p.length = 37 := hlen p (everyNth_subset N pkts 0 hp)
    simp [mkObciFrame, hp37]
  · rw [heq, frameSeq_indices _ 0 (by omega), hcount]
    simp

/-- C8 witness: two validated samples at ratio 2 yield exactly one frame. -/
theorem dongle_downsample_witness :
    (dongleSink 2 true 0 0 [List.replicate 37 3, List.replicate 37 4]).length =
      [List.replicate 37 3, List.replicate 37 4].length / 2 :=
  (dongle_downsample 2 (by omega) [List.replicate 37 3, List.replicate 37 4]
    (by simp)).2.1

set_option maxRecDepth 4000 in
/-- C9: the Virtual-Serial command state machine: byte 118 ('v') disables
streaming and replies with the identity string, 98 ('b') enables streaming
with no reply, 115 ('s') disables streaming with no reply, any byte of the
fixed acknowledgment set replies with exactly one comma (44) and leaves the
flag unchanged, and every other byte changes nothing and replies nothing. -/
theorem dongle_commands (st : Bool) :
    handleCmd st 118 = (false, idStringBytes) ∧
    handleCmd st 98 = (true, []) ∧
    handleCmd st 115 = (false, []) ∧
    (∀ b, b < 256 → b ∈ ackBytes → handleCmd st b = (st, [44])) ∧
    (∀ b, b < 256 → (b ∉ ackBytes ∧ b ≠ 118 ∧ b ≠ 98 ∧ b ≠ 115) →
      handleCmd st b = (st, [])) := by
  cases st <;> decide

/-- C9 witness: byte 120 ('x') is acknowledged with exactly one comma and
leaves the streaming flag unchanged. -/
theorem dongle_commands_witness :
    handleCmd true 120 = (true, [44]) :=
  (dongle_commands true).2.2.2.1 120 (by decide) (by decide)

/-- C10: on any 37-byte packet of bytes < 256 the sample decoder is total and
produces exactly 8 channel values, each read from an exactly-3-byte big-endian
two's-complement slice, hence each in [-2^23, 2^23 - 1]. -/
theorem decode_total (pkt : List Nat) (h37 : pkt.length = 37)
    (hb : ∀ b ∈ pkt, b < 256) :
    (decodeSample pkt).length = 8 ∧
    (∀ ch, ch < 8 → (channelBytes pkt ch).length = 3) ∧
    (∀ v ∈ decodeSample pkt, -8388608 ≤ v ∧ v ≤ 8388607) := by
  have hlen : ∀ ch, ch < 8 → (channelBytes pkt ch).length = 3 := by
    intro ch hch
    simp only [channelBytes, adsData, List.length_take, List.length_drop, h37]
    omega
  refine ⟨by simp [decodeSample], hlen, ?_⟩
  intro v hv
  simp only [decodeSample, List.mem_map, List.mem_range] at hv
  obtain ⟨ch, hch, rfl⟩ := hv
  apply int3_bounds _ (hlen ch hch)
  intro b hbmem
  exact hb b (List.drop_subset _ _ (List.take_subset _ _ (List.drop_subset _ _
    (List.take_subset _ _ hbmem))))

/-- C10 witness: the all-zero 37-byte packet decodes to 8 channel values. -/
theorem decode_total_witness :
    (List.replicate 37 0).length = 37 ∧ (decodeSample (List.replicate 37 0)).length = 8 :=
  ⟨by simp, (decode_total (List.replicate 37 0) (by simp)
    (by intro b hbm; rw [List.eq_of_mem_replicate hbm]; omega)).1⟩

end Cerelog
